import Mathlib

/-!
Shallow embedding of the `alloc-fun` allocators (`src/bump.rs`, `src/freelist.rs`).

Conventions of the embedding:
* Machine integers (`usize`) are modelled as `Nat`.  The arena capacities and
  request sizes exercised by the program are far below `2^64`, and no claim
  probes `usize` overflow, so no explicit `% 2^64` is needed.
* Pointers into the arena are modelled as absolute addresses (`Nat`); the arena
  occupies `[base, base + SIZE)`.  A null pointer is address `0`.
* A Rust function that can panic (a failed `assert!` / `expect`) is modelled as
  returning `Option`, with `none` for the panic.
* The target is 64-bit: `mem::size_of::<ListNode>() = 16` (a `usize` plus a
  niche-optimised `Option<&'static mut ListNode>`), `mem::align_of::<ListNode>() = 8`.
-/

namespace AllocFun

/-- Rust `std::alloc::Layout`: a `(size, align)` request.  The Rust type
guarantees `align` is a power of two; theorems take that (or the weaker
`0 < align`) as a hypothesis where they need it. -/
structure Layout where
  size : Nat
  align : Nat
deriving DecidableEq, Repr

/-- `Layout::pad_to_align`: round `size` up to a multiple of `align`. -/
def Layout.padToAlign (l : Layout) : Layout :=
  { l with size := (l.size + l.align - 1) / l.align * l.align }

/-! ## Bump allocator (`src/bump.rs`)

`BumpAlloc<SIZE>` holds `arena: UnsafeCell<[u8; SIZE]>` and a mutex-guarded
`BumpImpl { next, allocations }`.  The mutex serialises `alloc`/`dealloc`, so
the sequential model below is the code's behaviour.  The arena bytes are
carried in the state to express that the allocator itself never writes them. -/

structure BumpAlloc where
  arena : List Nat
  next : Nat
  allocations : Nat
deriving DecidableEq, Repr

/-- `BumpAlloc::new()`: zero-filled arena, `next = 0`, `allocations = 0`. -/
def BumpAlloc.new (SIZE : Nat) : BumpAlloc :=
  { arena := List.replicate SIZE 0, next := 0, allocations := 0 }

/-- `BumpAlloc::alloc` (src/bump.rs lines 36-49).  Returns the offset handed
out (`none` models the null pointer returned on exhaustion) together with the
state after the call. -/
def BumpAlloc.alloc (SIZE : Nat) (st : BumpAlloc) (layout : Layout) :
    Option Nat × BumpAlloc :=
  let size := layout.padToAlign.size
  if st.next + size > SIZE then
    (none, st)
  else
    (some st.next,
      { st with next := st.next + size, allocations := st.allocations + 1 })

/-- `BumpAlloc::dealloc` (src/bump.rs lines 53-60): decrement `allocations`;
when it reaches zero reset `next` to 0.  (`allocations -= 1` underflows for
`allocations = 0`; every theorem about `dealloc` assumes `1 ≤ allocations`.) -/
def BumpAlloc.dealloc (st : BumpAlloc) : BumpAlloc :=
  let allocations := st.allocations - 1
  { st with
    allocations := allocations,
    next := if allocations = 0 then 0 else st.next }

/-! ## Free-list allocator (`src/freelist.rs`) -/

/-- `mem::size_of::<ListNode>()` on the 64-bit target. -/
def listNodeSize : Nat := 16

/-- `mem::align_of::<ListNode>()` on the 64-bit target. -/
def listNodeAlign : Nat := 8

/-- A free region: the `ListNode` written at `addr` records `size`; the `next`
pointer is represented by the position in the surrounding `List`. -/
structure ListNode where
  addr : Nat
  size : Nat
deriving DecidableEq, Repr

/-- `ListNode::suitable_for` (src/freelist.rs lines 60-71): the node fits the
request and the excess is zero or can host a `ListNode`.  (`checked_sub`
returns `None` exactly when `size > self.size`, which the first conjunct
already excludes, so `Nat` subtraction is faithful.) -/
def ListNode.suitable_for (node : ListNode) (size : Nat) : Bool :=
  size ≤ node.size &&
    (node.size - size == 0 || listNodeSize ≤ node.size - size)

/-- `FreeListImpl<SIZE>`: `head = none` models `head: Option<ListNode> = None`
(uninitialized); `head = some nodes` models the size-0 sentinel node being
present, with `nodes` the chain hanging off the sentinel's `next`, in list
order.  `base` is the (non-null, `ListNode`-aligned in any run that does not
panic) address of `arena[0]`. -/
structure FreeListImpl where
  base : Nat
  head : Option (List ListNode)
deriving DecidableEq, Repr

/-- `FreeListImpl::new()` (src/freelist.rs lines 82-88): uninitialized list. -/
def FreeListImpl.new (base : Nat) : FreeListImpl :=
  { base := base, head := none }

/-- `FreeListImpl::free_list_length` (test helper): number of nodes reachable
from the sentinel's `next`, i.e. the sentinel itself is not counted. -/
def FreeListImpl.free_list_length (st : FreeListImpl) : Nat :=
  match st.head with
  | none => 0
  | some nodes => nodes.length

/-- `FreeListImpl::find_region` (src/freelist.rs lines 116-133): walk from the
sentinel, unlink and return the first suitable node, keeping the rest of the
list in order. -/
def find_region : List ListNode → Nat → Option (ListNode × List ListNode)
  | [], _ => none
  | node :: rest, size =>
    if node.suitable_for size then
      some (node, rest)
    else
      match find_region rest size with
      | some (found, rest2) => some (found, node :: rest2)
      | none => none

/-- `FreeListImpl::add_free_region` (src/freelist.rs lines 135-157): assert the
pointer is non-null, `ListNode`-aligned, and the area fits a `ListNode`
(`none` models each failed assertion, and the `expect` on an uninitialized
head), then write a node at `addr` and splice it in right after the sentinel
(LIFO). -/
def add_free_region (st : FreeListImpl) (addr size : Nat) : Option FreeListImpl :=
  if addr = 0 then none
  else if addr % listNodeAlign ≠ 0 then none
  else if size < listNodeSize then none
  else
    match st.head with
    | none => none
    | some nodes => some { st with head := some (⟨addr, size⟩ :: nodes) }

/-- `FreeListImpl::adjust_layout` (src/freelist.rs lines 159-163): size at
least `size_of::<ListNode>()`, alignment at least `align_of::<ListNode>()`. -/
def adjust_layout (layout : Layout) : Layout :=
  { size := max layout.size listNodeSize,
    align := max layout.align listNodeAlign }

/-- The effective (normalized, padded) size both `alloc` and `dealloc`
compute: `Self::adjust_layout(layout).pad_to_align().size()`. -/
def effSize (layout : Layout) : Nat :=
  (adjust_layout layout).padToAlign.size

/-- The part of `FreeListImpl::alloc` (src/freelist.rs lines 165-189) after
the lazy initialization: compute the effective size, unlink the first
suitable region, re-insert the leftover (if any) at the list head, return the
carved block's start.  Outer `none` is a panic (a failed assertion, or
`find_region`'s `expect` on a `None` head); the inner `Option Nat` is the
returned pointer, `none` for null.  The
`assert_eq!(alloc_start as usize, node.start_addr())` holds definitionally
here (a node's address is its `addr` field); the `assert!(node.size >= size)`
is the `if size ≤ node.size` guard.

Note `alloc_end`: the source computes `alloc_start.add(size)` where
`alloc_start : *mut ListNode`, and `pointer::add` counts in elements of the
pointee type, so the leftover node is written `size * size_of::<ListNode>()`
bytes past the carved block's start — `node.addr + listNodeSize * size`
here — not `size` bytes. -/
def FreeListImpl.allocFrom (st : FreeListImpl) (layout : Layout) :
    Option (Option Nat × FreeListImpl) :=
  match st.head with
  | none => none
  | some nodes =>
    let size := effSize layout
    match find_region nodes size with
    | none => some (none, st)
    | some (node, rest) =>
      if size ≤ node.size then
        let excess := node.size - size
        let st1 := { st with head := some rest }
        if 0 < excess then
          match add_free_region st1 (node.addr + listNodeSize * size) excess with
          | none => none
          | some st2 => some (some node.addr, st2)
        else some (some node.addr, st1)
      else none

/-- `FreeListImpl::alloc` (src/freelist.rs lines 165-189): on the first call
(`head` still `None`) install the sentinel and hand the whole arena to the
free list, then proceed with the search (`FreeListImpl.allocFrom`). -/
def FreeListImpl.alloc (SIZE : Nat) (st : FreeListImpl) (layout : Layout) :
    Option (Option Nat × FreeListImpl) :=
  match st.head with
  | none =>
    match add_free_region { st with head := some [] } st.base SIZE with
    | none => none
    | some st0 => FreeListImpl.allocFrom st0 layout
  | some _ => FreeListImpl.allocFrom st layout

/-- `FreeListImpl::dealloc` (src/freelist.rs lines 191-194): recompute the
adjusted, padded size and hand the region back to the list. -/
def FreeListImpl.dealloc (st : FreeListImpl) (p : Nat) (layout : Layout) :
    Option FreeListImpl :=
  add_free_region st p (effSize layout)

/-! ## Allocation traces

`runBumpAllocs` / `runFreeListAllocs` drive a sequence of `alloc` calls with no
intervening `dealloc`, recording for each call the returned address together
with the padded size the allocator reserved for it (`none` for a null return).
A free-list panic (`alloc = none`) aborts the trace. -/

def runBumpAllocs (SIZE : Nat) : BumpAlloc → List Layout →
    BumpAlloc × List (Option (Nat × Nat))
  | st, [] => (st, [])
  | st, layout :: ls =>
    let (res, st1) := BumpAlloc.alloc SIZE st layout
    let (st2, rs) := runBumpAllocs SIZE st1 ls
    (st2, res.map (fun a => (a, layout.padToAlign.size)) :: rs)

def runFreeListAllocs (SIZE : Nat) : FreeListImpl → List Layout →
    FreeListImpl × List (Option (Nat × Nat))
  | st, [] => (st, [])
  | st, layout :: ls =>
    match FreeListImpl.alloc SIZE st layout with
    | none => (st, [])
    | some (res, st1) =>
      let (st2, rs) := runFreeListAllocs SIZE st1 ls
      (st2, res.map (fun a => (a, effSize layout)) :: rs)

/-- The byte ranges of the successful allocations of a trace. -/
def outRanges (rs : List (Option (Nat × Nat))) : List (Nat × Nat) :=
  rs.filterMap id

/-- `[r.1, r.1 + r.2)` and `[s.1, s.1 + s.2)` do not overlap. -/
def RangesDisjoint (r s : Nat × Nat) : Prop :=
  r.1 + r.2 ≤ s.1 ∨ s.1 + s.2 ≤ r.1

/-- One full allocate/release cycle of a fixed layout
(the body of the loop in the test
`repeated_alloc_and_dealloc_keeps_free_list_stable`, src/freelist.rs
lines 263-274; releasing a null pointer panics inside `add_free_region`). -/
def allocDealloc (SIZE : Nat) (layout : Layout) (st : FreeListImpl) :
    Option FreeListImpl :=
  match FreeListImpl.alloc SIZE st layout with
  | none => none
  | some (res, st1) =>
    match res with
    | none => none
    | some p => FreeListImpl.dealloc st1 p layout

/-- `n` allocate/release cycles of a fixed layout from the fresh state. -/
def iterCycles (SIZE : Nat) (layout : Layout) (base : Nat) : Nat → Option FreeListImpl
  | 0 => some (FreeListImpl.new base)
  | n + 1 => (iterCycles SIZE layout base n).bind (allocDealloc SIZE layout)

/-! ## Helper lemmas -/

lemma le_roundUp (s a : Nat) (ha : 0 < a) : s ≤ (s + a - 1) / a * a := by
  by_contra h
  push_neg at h
  have h2 : ((s + a - 1) / a + 1) * a ≤ s + a - 1 := by
    rw [Nat.succ_mul]
    omega
  have h3 : (s + a - 1) / a + 1 ≤ (s + a - 1) / a :=
    (Nat.le_div_iff_mul_le ha).mpr h2
  omega

lemma effSize_def (layout : Layout) :
    effSize layout =
      (max layout.size listNodeSize + max layout.align listNodeAlign - 1) /
          max layout.align listNodeAlign * max layout.align listNodeAlign := rfl

lemma align_pos (layout : Layout) : 0 < max layout.align listNodeAlign :=
  lt_of_lt_of_le (by norm_num [listNodeAlign]) (le_max_right _ _)

lemma listNodeSize_le_effSize (layout : Layout) : listNodeSize ≤ effSize layout := by
  rw [effSize_def]
  exact le_trans (le_max_right _ _) (le_roundUp _ _ (align_pos layout))

lemma effSize_mod_align (layout : Layout) :
    effSize layout % max layout.align listNodeAlign = 0 := by
  rw [effSize_def]
  exact Nat.mul_mod_left _ _

lemma suitable_for_iff (node : ListNode) (s : Nat) :
    node.suitable_for s = true ↔
      s ≤ node.size ∧ (node.size - s = 0 ∨ listNodeSize ≤ node.size - s) := by
  simp [ListNode.suitable_for]

lemma find_region_split {l : List ListNode} {s : Nat} {n : ListNode}
    {rest : List ListNode} (h : find_region l s = some (n, rest)) :
    ∃ l1 l2, l = l1 ++ n :: l2 ∧ rest = l1 ++ l2 ∧
      n.suitable_for s = true ∧ ∀ m ∈ l1, m.suitable_for s = false := by
  induction l generalizing rest with
  | nil => simp [find_region] at h
  | cons a t ih =>
    by_cases ha : a.suitable_for s
    · rw [find_region, if_pos ha] at h
      simp only [Option.some.injEq, Prod.mk.injEq] at h
      obtain ⟨rfl, rfl⟩ := h
      exact ⟨[], _, rfl, rfl, ha, by simp⟩
    · rw [find_region, if_neg ha] at h
      cases hf : find_region t s with
      | none => rw [hf] at h; exact absurd h (by simp)
      | some p =>
        obtain ⟨f, r2⟩ := p
        rw [hf] at h
        simp only [Option.some.injEq, Prod.mk.injEq] at h
        obtain ⟨rfl, rfl⟩ := h
        obtain ⟨l1, l2, rfl, rfl, hsuit, hskip⟩ := ih hf
        refine ⟨a :: l1, l2, rfl, rfl, hsuit, ?_⟩
        intro m hm
        rcases List.mem_cons.mp hm with rfl | hm
        · exact Bool.eq_false_iff.mpr ha
        · exact hskip m hm

lemma find_region_none {l : List ListNode} {s : Nat}
    (h : find_region l s = none) : ∀ m ∈ l, m.suitable_for s = false := by
  induction l with
  | nil => simp
  | cons a t ih =>
    by_cases ha : a.suitable_for s
    · rw [find_region, if_pos ha] at h; exact absurd h (by simp)
    · rw [find_region, if_neg ha] at h
      cases hf : find_region t s with
      | none =>
        intro m hm
        rcases List.mem_cons.mp hm with rfl | hm
        · exact Bool.eq_false_iff.mpr ha
        · exact ih hf m hm
      | some p => obtain ⟨f, r2⟩ := p; rw [hf] at h; exact absurd h (by simp)

lemma add_free_region_eq_some {st : FreeListImpl} {addr size : Nat}
    {st' : FreeListImpl} :
    add_free_region st addr size = some st' ↔
      addr ≠ 0 ∧ addr % listNodeAlign = 0 ∧ listNodeSize ≤ size ∧
      ∃ nodes, st.head = some nodes ∧
        st' = { st with head := some (⟨addr, size⟩ :: nodes) } := by
  unfold add_free_region
  split_ifs with h1 h2 h3
  · constructor
    · intro h; exact absurd h (by simp)
    · rintro ⟨hne, -, -, -⟩; exact absurd h1 hne
  · constructor
    · intro h; exact absurd h (by simp)
    · rintro ⟨-, hal, -, -⟩; exact absurd hal h2
  · constructor
    · intro h; exact absurd h (by simp)
    · rintro ⟨-, -, hsz, -⟩; omega
  · cases hh : st.head with
    | none =>
      constructor
      · intro h; exact absurd h (by simp)
      · rintro ⟨-, -, -, nodes', hn, -⟩
        exact absurd hn (by simp)
    | some nodes =>
      constructor
      · intro h
        refine ⟨h1, by omega, by omega, nodes, rfl, (Option.some.inj h).symm⟩
      · rintro ⟨-, -, -, nodes', hn, rfl⟩
        rw [Option.some.inj hn]

/-- Equation for `FreeListImpl.allocFrom` on an initialized state. -/
lemma allocFrom_eq (st : FreeListImpl) (layout : Layout)
    (nodes : List ListNode) (hh : st.head = some nodes) :
    FreeListImpl.allocFrom st layout =
      match find_region nodes (effSize layout) with
      | none => some (none, st)
      | some (node, rest) =>
        if effSize layout ≤ node.size then
          if 0 < node.size - effSize layout then
            match add_free_region { st with head := some rest }
                (node.addr + listNodeSize * effSize layout)
                (node.size - effSize layout) with
            | none => none
            | some st2 => some (some node.addr, st2)
          else some (some node.addr, { st with head := some rest })
        else none := by
  obtain ⟨b, head⟩ := st
  obtain rfl : head = some nodes := hh
  rfl

/-- Equation for `FreeListImpl.alloc` on the uninitialized state. -/
lemma alloc_eq_uninit (SIZE : Nat) (st : FreeListImpl) (layout : Layout)
    (hh : st.head = none) :
    FreeListImpl.alloc SIZE st layout =
      match add_free_region { st with head := some [] } st.base SIZE with
      | none => none
      | some st0 => FreeListImpl.allocFrom st0 layout := by
  obtain ⟨b, head⟩ := st
  obtain rfl : head = (none : Option (List ListNode)) := hh
  rfl

/-- Equation for `FreeListImpl.alloc` on an initialized state. -/
lemma alloc_eq_init (SIZE : Nat) (st : FreeListImpl) (layout : Layout)
    (nodes : List ListNode) (hh : st.head = some nodes) :
    FreeListImpl.alloc SIZE st layout = FreeListImpl.allocFrom st layout := by
  obtain ⟨b, head⟩ := st
  obtain rfl : head = some nodes := hh
  rfl

/-- `allocFrom` only ever produces initialized states. -/
lemma allocFrom_some_head {st : FreeListImpl} {layout : Layout}
    {res : Option Nat} {st1 : FreeListImpl}
    (h : FreeListImpl.allocFrom st layout = some (res, st1)) :
    ∃ nodes1, st1.head = some nodes1 := by
  obtain ⟨b, head⟩ := st
  cases head with
  | none => exact absurd h (by simp [FreeListImpl.allocFrom])
  | some nodes =>
    rw [allocFrom_eq ⟨b, some nodes⟩ layout nodes rfl] at h
    cases hf : find_region nodes (effSize layout) with
    | none =>
      rw [hf] at h
      simp only [Option.some.injEq, Prod.mk.injEq] at h
      obtain ⟨-, rfl⟩ := h
      exact ⟨nodes, rfl⟩
    | some p =>
      obtain ⟨node, rest⟩ := p
      rw [hf] at h
      dsimp only at h
      by_cases hle : effSize layout ≤ node.size
      · rw [if_pos hle] at h
        by_cases hpos : 0 < node.size - effSize layout
        · rw [if_pos hpos] at h
          cases ha : add_free_region ⟨b, some rest⟩
              (node.addr + listNodeSize * effSize layout)
              (node.size - effSize layout) with
          | none => rw [ha] at h; exact absurd h (by simp)
          | some st2 =>
            rw [ha] at h
            simp only [Option.some.injEq, Prod.mk.injEq] at h
            obtain ⟨-, rfl⟩ := h
            obtain ⟨-, -, -, nodes2, -, rfl⟩ := add_free_region_eq_some.mp ha
            exact ⟨_, rfl⟩
        · rw [if_neg hpos] at h
          simp only [Option.some.injEq, Prod.mk.injEq] at h
          obtain ⟨-, rfl⟩ := h
          exact ⟨rest, rfl⟩
      · rw [if_neg hle] at h
        exact absurd h (by simp)

/-- `alloc` only ever produces initialized states. -/
lemma alloc_some_head {SIZE : Nat} {st : FreeListImpl} {layout : Layout}
    {res : Option Nat} {st1 : FreeListImpl}
    (h : FreeListImpl.alloc SIZE st layout = some (res, st1)) :
    ∃ nodes1, st1.head = some nodes1 := by
  obtain ⟨b, head⟩ := st
  cases head with
  | none =>
    rw [alloc_eq_uninit _ _ _ rfl] at h
    dsimp only at h
    cases ha : add_free_region ⟨b, some []⟩ b SIZE with
    | none => rw [ha] at h; exact absurd h (by simp)
    | some st0 =>
      rw [ha] at h
      exact allocFrom_some_head h
  | some nodes =>
    rw [alloc_eq_init _ _ _ nodes rfl] at h
    exact allocFrom_some_head h

/-- First `alloc` call on a fresh state: initialize to the single region
spanning the whole arena, then search from there. -/
lemma alloc_new_eq (SIZE base : Nat) (layout : Layout)
    (hbase : base ≠ 0) (hal : base % listNodeAlign = 0)
    (hsz : listNodeSize ≤ SIZE) :
    FreeListImpl.alloc SIZE (FreeListImpl.new base) layout =
      FreeListImpl.allocFrom ⟨base, some [⟨base, SIZE⟩]⟩ layout := by
  rw [alloc_eq_uninit _ _ _ rfl]
  dsimp only [FreeListImpl.new]
  rw [show add_free_region ⟨base, some []⟩ base SIZE =
      some ⟨base, some [⟨base, SIZE⟩]⟩ from
    add_free_region_eq_some.mpr ⟨hbase, hal, hsz, [], rfl, rfl⟩]

lemma rangesDisjoint_symm : Symmetric RangesDisjoint := by
  intro r s h
  rcases h with h | h
  · right; exact h
  · left; exact h

lemma outRanges_nil : outRanges [] = [] := rfl

lemma outRanges_cons_none (l : List (Option (Nat × Nat))) :
    outRanges (none :: l) = outRanges l := by
  simp [outRanges]

lemma outRanges_cons_some (r : Nat × Nat) (l : List (Option (Nat × Nat))) :
    outRanges (some r :: l) = r :: outRanges l := by
  simp [outRanges]

/-- Equation form of `BumpAlloc.alloc`. -/
lemma bumpAlloc_eq (SIZE : Nat) (st : BumpAlloc) (layout : Layout) :
    BumpAlloc.alloc SIZE st layout =
      if st.next + layout.padToAlign.size > SIZE then (none, st)
      else (some st.next, { st with next := st.next + layout.padToAlign.size, allocations := st.allocations + 1 }) := rfl

lemma runBumpAllocs_nil (SIZE : Nat) (st : BumpAlloc) :
    runBumpAllocs SIZE st [] = (st, []) := rfl

lemma runBumpAllocs_cons (SIZE : Nat) (st : BumpAlloc) (layout : Layout)
    (ls : List Layout) :
    runBumpAllocs SIZE st (layout :: ls) =
      ((runBumpAllocs SIZE (BumpAlloc.alloc SIZE st layout).2 ls).1,
        (BumpAlloc.alloc SIZE st layout).1.map
            (fun a => (a, layout.padToAlign.size)) ::
          (runBumpAllocs SIZE (BumpAlloc.alloc SIZE st layout).2 ls).2) := rfl

/-- In a bump trace every handed-out range lies between the starting `next`
offset and the final `next` offset. -/
lemma runBump_bounds (SIZE : Nat) (ls : List Layout) :
    ∀ st : BumpAlloc,
      st.next ≤ (runBumpAllocs SIZE st ls).1.next ∧
      ∀ r ∈ outRanges (runBumpAllocs SIZE st ls).2,
        st.next ≤ r.1 ∧ r.1 + r.2 ≤ (runBumpAllocs SIZE st ls).1.next := by
  induction ls with
  | nil =>
    intro st
    refine ⟨le_refl _, ?_⟩
    intro r hr
    rw [runBumpAllocs_nil, outRanges_nil] at hr
    exact absurd hr (by simp)
  | cons layout ls ih =>
    intro st
    rw [runBumpAllocs_cons, bumpAlloc_eq]
    by_cases hc : st.next + layout.padToAlign.size > SIZE
    · rw [if_pos hc]
      dsimp only
      refine ⟨(ih st).1, ?_⟩
      intro r hr
      rw [Option.map_none', outRanges_cons_none] at hr
      exact (ih st).2 r hr
    · rw [if_neg hc]
      dsimp only
      have ih1 := ih { st with next := st.next + layout.padToAlign.size, allocations := st.allocations + 1 }
      refine ⟨le_trans (Nat.le_add_right _ _) ih1.1, ?_⟩
      intro r hr
      rw [Option.map_some', outRanges_cons_some] at hr
      rcases List.mem_cons.mp hr with rfl | hr
      · exact ⟨le_refl _, ih1.1⟩
      · have hb := ih1.2 r hr
        exact ⟨le_trans (Nat.le_add_right _ _) hb.1, hb.2⟩

/-- Bump traces hand out pairwise disjoint ranges. -/
lemma runBump_pairwise (SIZE : Nat) (ls : List Layout) :
    ∀ st : BumpAlloc,
      List.Pairwise RangesDisjoint (outRanges (runBumpAllocs SIZE st ls).2) := by
  induction ls with
  | nil =>
    intro st
    rw [runBumpAllocs_nil, outRanges_nil]
    exact List.Pairwise.nil
  | cons layout ls ih =>
    intro st
    rw [runBumpAllocs_cons, bumpAlloc_eq]
    by_cases hc : st.next + layout.padToAlign.size > SIZE
    · rw [if_pos hc]
      dsimp only
      rw [Option.map_none', outRanges_cons_none]
      exact ih st
    · rw [if_neg hc]
      dsimp only
      rw [Option.map_some', outRanges_cons_some]
      refine List.pairwise_cons.mpr ⟨?_, ih _⟩
      intro r hr
      have hb := (runBump_bounds SIZE ls { st with next := st.next + layout.padToAlign.size, allocations := st.allocations + 1 }).2 r hr
      exact Or.inl hb.1

/-- The handed-out ranges after one call: the carved range `(a, s)` is
prepended to `acc` when the call returned pointer `a`. -/
def consRes (res : Option Nat) (s : Nat) (acc : List (Nat × Nat)) :
    List (Nat × Nat) :=
  match res with
  | some a => (a, s) :: acc
  | none => acc

lemma runFreeListAllocs_nil (SIZE : Nat) (st : FreeListImpl) :
    runFreeListAllocs SIZE st [] = (st, []) := rfl

lemma runFreeListAllocs_cons (SIZE : Nat) (st : FreeListImpl) (layout : Layout)
    (ls : List Layout) :
    runFreeListAllocs SIZE st (layout :: ls) =
      match FreeListImpl.alloc SIZE st layout with
      | none => (st, [])
      | some (res, st1) =>
        ((runFreeListAllocs SIZE st1 ls).1,
          res.map (fun a => (a, effSize layout)) ::
            (runFreeListAllocs SIZE st1 ls).2) := rfl

/-- The invariant a pure allocation trace maintains: the ranges handed out so
far are pairwise disjoint, an uninitialized allocator has handed out nothing,
and the free list holds at most one node, whose address is at or past the end
of every handed-out range.  (A trace with no `dealloc` never has more than one
free node: initialization creates one, and each `alloc` unlinks one node and
re-inserts at most one leftover node.  The node's recorded extent may overlap
nothing that matters: only its start address is ever handed out, and the next
leftover starts `listNodeSize * size` past it, beyond the carved block.) -/
def Inv (st : FreeListImpl) (acc : List (Nat × Nat)) : Prop :=
  List.Pairwise RangesDisjoint acc ∧
  (st.head = none → acc = []) ∧
  (∀ nodes, st.head = some nodes →
    nodes = [] ∨ ∃ a z, nodes = [⟨a, z⟩] ∧ ∀ r ∈ acc, r.1 + r.2 ≤ a)

lemma allocFrom_step_single {st : FreeListImpl} {layout : Layout}
    {res : Option Nat} {st1 : FreeListImpl} {nodes : List ListNode}
    (hh : st.head = some nodes)
    (h : FreeListImpl.allocFrom st layout = some (res, st1))
    (acc : List (Nat × Nat))
    (hpair : List.Pairwise RangesDisjoint acc)
    (hnodes : nodes = [] ∨ ∃ a z, nodes = [⟨a, z⟩] ∧ ∀ r ∈ acc, r.1 + r.2 ≤ a) :
    Inv st1 (consRes res (effSize layout) acc) := by
  have h16 : listNodeSize = 16 := rfl
  rw [allocFrom_eq st layout nodes hh] at h
  rcases hnodes with rfl | ⟨a, z, rfl, hpast⟩
  · rw [show find_region [] (effSize layout) = none from rfl] at h
    dsimp only at h
    simp only [Option.some.injEq, Prod.mk.injEq] at h
    obtain ⟨rfl, rfl⟩ := h
    refine ⟨hpair, by simp [hh], ?_⟩
    intro nodes1 hn1
    rw [hh] at hn1
    exact Or.inl (Option.some.inj hn1).symm
  · by_cases hsuit : (⟨a, z⟩ : ListNode).suitable_for (effSize layout)
    · rw [show find_region [⟨a, z⟩] (effSize layout) = some (⟨a, z⟩, []) from
        by rw [find_region, if_pos hsuit]] at h
      dsimp only at h
      rw [suitable_for_iff] at hsuit
      obtain ⟨hle, -⟩ := hsuit
      rw [if_pos hle] at h
      have hpair1 : List.Pairwise RangesDisjoint ((a, effSize layout) :: acc) :=
        List.pairwise_cons.mpr ⟨fun r hr => Or.inr (hpast r hr), hpair⟩
      by_cases hpos : 0 < z - effSize layout
      · rw [if_pos hpos] at h
        cases ha : add_free_region ⟨st.base, some []⟩
            (a + listNodeSize * effSize layout) (z - effSize layout) with
        | none => rw [ha] at h; exact absurd h (by simp)
        | some st2 =>
          rw [ha] at h
          simp only [Option.some.injEq, Prod.mk.injEq] at h
          obtain ⟨rfl, rfl⟩ := h
          obtain ⟨-, -, -, nodes2, hn2, rfl⟩ := add_free_region_eq_some.mp ha
          obtain rfl : ([] : List ListNode) = nodes2 := Option.some.inj hn2
          refine ⟨hpair1, by simp, ?_⟩
          intro nodes1 hn1
          refine Or.inr ⟨a + listNodeSize * effSize layout, z - effSize layout,
            (Option.some.inj hn1).symm, ?_⟩
          intro r hr
          rcases List.mem_cons.mp hr with rfl | hr
          · show a + effSize layout ≤ a + listNodeSize * effSize layout
            rw [h16]
            omega
          · exact le_trans (hpast r hr) (Nat.le_add_right _ _)
      · rw [if_neg hpos] at h
        simp only [Option.some.injEq, Prod.mk.injEq] at h
        obtain ⟨rfl, rfl⟩ := h
        refine ⟨hpair1, by simp, ?_⟩
        intro nodes1 hn1
        exact Or.inl (Option.some.inj hn1).symm
    · rw [show find_region [⟨a, z⟩] (effSize layout) = none from by
        rw [find_region, if_neg hsuit, find_region]] at h
      dsimp only at h
      simp only [Option.some.injEq, Prod.mk.injEq] at h
      obtain ⟨rfl, rfl⟩ := h
      refine ⟨hpair, by simp [hh], ?_⟩
      intro nodes1 hn1
      rw [hh] at hn1
      exact Or.inr ⟨a, z, (Option.some.inj hn1).symm, hpast⟩

lemma alloc_step_single {SIZE : Nat} {st : FreeListImpl} {layout : Layout}
    {res : Option Nat} {st1 : FreeListImpl}
    (h : FreeListImpl.alloc SIZE st layout = some (res, st1))
    (acc : List (Nat × Nat)) (hinv : Inv st acc) :
    Inv st1 (consRes res (effSize layout) acc) := by
  obtain ⟨hpair, hnone, hsome⟩ := hinv
  cases hh : st.head with
  | some nodes =>
    rw [alloc_eq_init _ _ _ nodes hh] at h
    exact allocFrom_step_single hh h acc hpair (hsome nodes hh)
  | none =>
    rw [alloc_eq_uninit _ _ _ hh] at h
    cases ha : add_free_region ⟨st.base, some []⟩ st.base SIZE with
    | none => rw [ha] at h; exact absurd h (by simp)
    | some st0 =>
      rw [ha] at h
      dsimp only at h
      obtain ⟨-, -, -, nodes0, hn0, rfl⟩ := add_free_region_eq_some.mp ha
      obtain rfl : ([] : List ListNode) = nodes0 := Option.some.inj hn0
      rw [hnone hh] at hpair ⊢
      refine allocFrom_step_single rfl h [] hpair ?_
      exact Or.inr ⟨st.base, SIZE, rfl, by simp⟩

/-- Free-list traces hand out pairwise disjoint ranges, also taking ranges
already handed out before the trace. -/
lemma runFreeList_single (SIZE : Nat) (ls : List Layout) :
    ∀ (st : FreeListImpl) (acc : List (Nat × Nat)), Inv st acc →
      List.Pairwise RangesDisjoint
        (outRanges (runFreeListAllocs SIZE st ls).2 ++ acc) := by
  induction ls with
  | nil =>
    intro st acc hinv
    rw [runFreeListAllocs_nil, outRanges_nil, List.nil_append]
    exact hinv.1
  | cons layout ls ih =>
    intro st acc hinv
    rw [runFreeListAllocs_cons]
    cases hstep : FreeListImpl.alloc SIZE st layout with
    | none =>
      dsimp only
      rw [outRanges_nil, List.nil_append]
      exact hinv.1
    | some p =>
      obtain ⟨res, st1⟩ := p
      dsimp only
      have hinv1 := alloc_step_single hstep acc hinv
      cases res with
      | none =>
        rw [Option.map_none', outRanges_cons_none]
        exact ih st1 acc hinv1
      | some a =>
        rw [Option.map_some', outRanges_cons_some]
        have hrun := ih st1 ((a, effSize layout) :: acc) hinv1
        have hperm : List.Perm
            (outRanges (runFreeListAllocs SIZE st1 ls).2 ++
              ((a, effSize layout) :: acc))
            ((a, effSize layout) ::
              (outRanges (runFreeListAllocs SIZE st1 ls).2 ++ acc)) :=
          List.perm_middle
        exact (hperm.pairwise_iff fun hab => rangesDisjoint_symm hab).mp hrun

lemma iterCycles_zero (SIZE : Nat) (layout : Layout) (base : Nat) :
    iterCycles SIZE layout base 0 = some (FreeListImpl.new base) := rfl

lemma iterCycles_succ (SIZE : Nat) (layout : Layout) (base n : Nat) :
    iterCycles SIZE layout base (n + 1) =
      (iterCycles SIZE layout base n).bind (allocDealloc SIZE layout) := rfl

/-- The first allocate/release cycle of a fixed layout from the fresh state:
the carved block is freed back as its own node in front of the leftover
region. -/
lemma allocDealloc_new (SIZE base : Nat) (layout : Layout)
    (hbase : base ≠ 0) (hal : base % listNodeAlign = 0)
    (hfit : effSize layout + listNodeSize ≤ SIZE) :
    allocDealloc SIZE layout (FreeListImpl.new base) =
      some ⟨base, some [⟨base, effSize layout⟩,
        ⟨base + listNodeSize * effSize layout, SIZE - effSize layout⟩]⟩ := by
  have h16 : listNodeSize = 16 := rfl
  have h8 : listNodeAlign = 8 := rfl
  have hs16 := listNodeSize_le_effSize layout
  have halloc : FreeListImpl.alloc SIZE (FreeListImpl.new base) layout =
      some (some base,
        ⟨base, some [⟨base + listNodeSize * effSize layout,
          SIZE - effSize layout⟩]⟩) := by
    rw [alloc_new_eq SIZE base layout hbase hal (by omega)]
    rw [allocFrom_eq _ _ [⟨base, SIZE⟩] rfl]
    have hsuit : (⟨base, SIZE⟩ : ListNode).suitable_for (effSize layout) = true := by
      rw [suitable_for_iff]
      dsimp only
      omega
    rw [show find_region [⟨base, SIZE⟩] (effSize layout) =
        some (⟨base, SIZE⟩, []) from by rw [find_region, if_pos hsuit]]
    dsimp only
    rw [if_pos (show effSize layout ≤ SIZE by omega)]
    rw [if_pos (show 0 < SIZE - effSize layout by omega)]
    rw [show add_free_region ⟨base, some []⟩
          (base + listNodeSize * effSize layout) (SIZE - effSize layout) =
        some ⟨base, some [⟨base + listNodeSize * effSize layout,
          SIZE - effSize layout⟩]⟩ from
      add_free_region_eq_some.mpr
        ⟨by rw [h16]; omega, by
          have hal8 : base % 8 = 0 := hal
          rw [h16, h8]
          omega, by omega, [], rfl, rfl⟩]
  unfold allocDealloc
  rw [halloc]
  dsimp only
  unfold FreeListImpl.dealloc
  exact add_free_region_eq_some.mpr ⟨hbase, hal, hs16, _, rfl, rfl⟩

/-- The steady state is a fixed point of the allocate/release cycle: the freed
node in front is re-used exactly (leftover 0) and freed back again. -/
lemma allocDealloc_steady (SIZE base : Nat) (layout : Layout)
    (hbase : base ≠ 0) (hal : base % listNodeAlign = 0) :
    allocDealloc SIZE layout
        ⟨base, some [⟨base, effSize layout⟩,
          ⟨base + listNodeSize * effSize layout, SIZE - effSize layout⟩]⟩ =
      some ⟨base, some [⟨base, effSize layout⟩,
        ⟨base + listNodeSize * effSize layout, SIZE - effSize layout⟩]⟩ := by
  have h16 : listNodeSize = 16 := rfl
  have hs16 := listNodeSize_le_effSize layout
  have hsuit : (⟨base, effSize layout⟩ : ListNode).suitable_for
      (effSize layout) = true := by
    rw [suitable_for_iff]
    dsimp only
    omega
  have halloc : FreeListImpl.alloc SIZE
      ⟨base, some [⟨base, effSize layout⟩,
        ⟨base + listNodeSize * effSize layout, SIZE - effSize layout⟩]⟩ layout =
      some (some base,
        ⟨base, some [⟨base + listNodeSize * effSize layout,
          SIZE - effSize layout⟩]⟩) := by
    rw [alloc_eq_init _ _ _ _ rfl, allocFrom_eq _ _ _ rfl]
    rw [show find_region [⟨base, effSize layout⟩,
          ⟨base + listNodeSize * effSize layout, SIZE - effSize layout⟩]
          (effSize layout) =
        some (⟨base, effSize layout⟩,
          [⟨base + listNodeSize * effSize layout, SIZE - effSize layout⟩]) from
      by rw [find_region, if_pos hsuit]]
    dsimp only
    rw [if_pos (le_refl (effSize layout))]
    rw [if_neg (show ¬ 0 < effSize layout - effSize layout by omega)]
  unfold allocDealloc
  rw [halloc]
  dsimp only
  unfold FreeListImpl.dealloc
  exact add_free_region_eq_some.mpr ⟨hbase, hal, hs16, _, rfl, rfl⟩

/-! ## Claim theorems -/

/-- C1: for every sequence of `alloc` calls with no intervening `dealloc`,
starting from the fresh state of either allocator, the byte ranges
`[address, address + padded size)` of the successful allocations are pairwise
non-overlapping. -/
theorem allocations_pairwise_disjoint :
    (∀ (SIZE : Nat) (ls : List Layout),
      List.Pairwise RangesDisjoint
        (outRanges (runBumpAllocs SIZE (BumpAlloc.new SIZE) ls).2)) ∧
    (∀ (SIZE base : Nat) (ls : List Layout),
      List.Pairwise RangesDisjoint
        (outRanges (runFreeListAllocs SIZE (FreeListImpl.new base) ls).2)) := by
  constructor
  · intro SIZE ls
    exact runBump_pairwise SIZE ls (BumpAlloc.new SIZE)
  · intro SIZE base ls
    have h := runFreeList_single SIZE ls (FreeListImpl.new base) []
      ⟨List.Pairwise.nil, fun _ => rfl, fun nodes hn => Option.noConfusion hn⟩
    simpa using h

/-- C2: `allocate` selects the first node in list order whose size is ≥ the
effective size and whose leftover is either exactly 0 or ≥ the minimum node
metadata size; a node large enough but with leftover strictly between 0 and
the minimum node size is not eligible, so the search continues past it. -/
theorem find_region_first_fit :
    (∀ (node : ListNode) (s : Nat),
      node.suitable_for s = true ↔
        s ≤ node.size ∧ (node.size - s = 0 ∨ listNodeSize ≤ node.size - s)) ∧
    (∀ (l : List ListNode) (s : Nat) (node : ListNode) (rest : List ListNode),
      find_region l s = some (node, rest) →
        ∃ l1 l2, l = l1 ++ node :: l2 ∧ rest = l1 ++ l2 ∧
          node.suitable_for s = true ∧ ∀ m ∈ l1, m.suitable_for s = false) ∧
    (∀ (l : List ListNode) (s : Nat), find_region l s = none →
      ∀ m ∈ l, m.suitable_for s = false) ∧
    (∀ (node : ListNode) (s : Nat), s ≤ node.size →
      0 < node.size - s → node.size - s < listNodeSize →
      node.suitable_for s = false) := by
  refine ⟨suitable_for_iff, fun l s n rest h => find_region_split h,
    fun l s h => find_region_none h, ?_⟩
  intro node s hle hpos hlt
  rw [Bool.eq_false_iff]
  intro hs
  rw [suitable_for_iff] at hs
  omega

theorem find_region_first_fit_witness :
    (∃ l1 l2, [(⟨8, 20⟩ : ListNode), ⟨40, 32⟩] = l1 ++ (⟨40, 32⟩ : ListNode) :: l2 ∧
      [(⟨8, 20⟩ : ListNode)] = l1 ++ l2 ∧
      (⟨40, 32⟩ : ListNode).suitable_for 16 = true ∧
      ∀ m ∈ l1, m.suitable_for 16 = false) ∧
    (⟨8, 20⟩ : ListNode).suitable_for 16 = false :=
  ⟨find_region_first_fit.2.1 [⟨8, 20⟩, ⟨40, 32⟩] 16 ⟨40, 32⟩ [⟨8, 20⟩] (by decide),
   find_region_first_fit.2.2.2 ⟨8, 20⟩ 16 (by decide) (by decide) (by decide)⟩

/-- C4: on a state with at least one outstanding allocation, `dealloc`
decrements the allocation count; `next` is reset to 0 exactly when the
decremented count reaches zero and is left unchanged otherwise (so with two or
more live allocations releasing one frees no space); the arena bytes are
untouched. -/
theorem bump_release_spec (st : BumpAlloc) (h : 1 ≤ st.allocations) :
    st.dealloc.allocations = st.allocations - 1 ∧
    st.dealloc.next = (if st.allocations - 1 = 0 then 0 else st.next) ∧
    (2 ≤ st.allocations → st.dealloc.next = st.next) ∧
    st.dealloc.arena = st.arena := by
  refine ⟨rfl, rfl, ?_, rfl⟩
  intro h2
  show (if st.allocations - 1 = 0 then 0 else st.next) = st.next
  rw [if_neg (by omega)]

theorem bump_release_spec_witness :
    (BumpAlloc.dealloc ⟨[0], 24, 2⟩).allocations = 1 ∧
    (BumpAlloc.dealloc ⟨[0], 24, 2⟩).next = 24 ∧
    (BumpAlloc.dealloc ⟨[0], 24, 2⟩).arena = [0] := by
  have h := bump_release_spec ⟨[0], 24, 2⟩ (by decide)
  exact ⟨h.1, h.2.2.1 (by decide), h.2.2.2⟩

/-- C6: the effective size is `max(requested size, listNodeSize)`, the
effective alignment is `max(requested alignment, listNodeAlign)`, the size is
then padded to a multiple of the effective alignment; `dealloc` recomputes the
same normalized/padded size (`effSize`, the very size `allocFrom` searches
with) and records a free node of that size at the released pointer, at the
head of the list. -/
theorem freelist_layout_normalization :
    (∀ layout : Layout,
      (adjust_layout layout).size = max layout.size listNodeSize ∧
      (adjust_layout layout).align = max layout.align listNodeAlign) ∧
    (∀ layout : Layout, effSize layout % max layout.align listNodeAlign = 0) ∧
    (∀ (st : FreeListImpl) (p : Nat) (layout : Layout) (nodes : List ListNode),
      st.head = some nodes → p ≠ 0 → p % listNodeAlign = 0 →
      FreeListImpl.dealloc st p layout =
        some { st with head := some (⟨p, effSize layout⟩ :: nodes) }) := by
  refine ⟨fun layout => ⟨rfl, rfl⟩, fun layout => effSize_mod_align layout, ?_⟩
  intro st p layout nodes hh hp hal
  unfold FreeListImpl.dealloc
  exact add_free_region_eq_some.mpr
    ⟨hp, hal, listNodeSize_le_effSize layout, nodes, hh, rfl⟩

theorem freelist_layout_normalization_witness :
    FreeListImpl.dealloc ⟨8, some []⟩ 8 ⟨10, 4⟩ = some ⟨8, some [⟨8, 16⟩]⟩ := by
  have h := freelist_layout_normalization.2.2 ⟨8, some []⟩ 8 ⟨10, 4⟩ []
    rfl (by decide) (by decide)
  exact h

/-- C7: bump `alloc` returns the null failure value (it is a total function:
no exception, no panic) if and only if the padded size exceeds the remaining
span; in particular with capacity 0 every request of non-zero size fails. -/
theorem bump_alloc_oom_iff :
    (∀ (SIZE : Nat) (st : BumpAlloc) (layout : Layout),
      ((BumpAlloc.alloc SIZE st layout).1 = none ↔
        SIZE < st.next + layout.padToAlign.size)) ∧
    (∀ (st : BumpAlloc) (layout : Layout), 0 < layout.size → 0 < layout.align →
      (BumpAlloc.alloc 0 st layout).1 = none) := by
  constructor
  · intro SIZE st layout
    simp only [BumpAlloc.alloc]
    by_cases h : st.next + layout.padToAlign.size > SIZE
    · rw [if_pos h]
      simpa using h
    · rw [if_neg h]
      simpa using h
  · intro st layout hs ha
    have hpad : layout.size ≤ layout.padToAlign.size := by
      simp only [Layout.padToAlign]
      exact le_roundUp layout.size layout.align ha
    simp only [BumpAlloc.alloc]
    rw [if_pos (by omega)]

theorem bump_alloc_oom_iff_witness :
    (BumpAlloc.alloc 0 (BumpAlloc.new 0) ⟨10, 4⟩).1 = none :=
  bump_alloc_oom_iff.2 (BumpAlloc.new 0) ⟨10, 4⟩ (by decide) (by decide)

/-- C9: `dealloc`'s recomputed size is always at least `listNodeSize`, the
`add_free_region` size assertion fires exactly when the size is below
`listNodeSize`, and hence the assertion branch is unreachable from `dealloc`
(for a non-null, `ListNode`-aligned pointer and an initialized list). -/
theorem release_small_assert :
    (∀ layout : Layout, listNodeSize ≤ effSize layout) ∧
    (∀ (st : FreeListImpl) (addr s : Nat) (nodes : List ListNode),
      st.head = some nodes → addr ≠ 0 → addr % listNodeAlign = 0 →
      (add_free_region st addr s = none ↔ s < listNodeSize)) ∧
    (∀ (st : FreeListImpl) (p : Nat) (layout : Layout) (nodes : List ListNode),
      st.head = some nodes → p ≠ 0 → p % listNodeAlign = 0 →
      (FreeListImpl.dealloc st p layout).isSome = true) := by
  refine ⟨listNodeSize_le_effSize, ?_, ?_⟩
  · intro st addr s nodes hh hne hal
    constructor
    · intro h
      by_contra hs
      push_neg at hs
      have hsome := add_free_region_eq_some.mpr ⟨hne, hal, hs, nodes, hh, rfl⟩
      rw [hsome] at h
      exact absurd h (by simp)
    · intro hs
      unfold add_free_region
      rw [if_neg hne, if_neg (not_not_intro hal), if_pos hs]
  · intro st p layout nodes hh hp hal
    have hsome := add_free_region_eq_some.mpr
      ⟨hp, hal, listNodeSize_le_effSize layout, nodes, hh, rfl⟩
    unfold FreeListImpl.dealloc
    rw [hsome]
    rfl

theorem release_small_assert_witness :
    (add_free_region ⟨8, some []⟩ 8 10 = none ↔ (10 : Nat) < listNodeSize) ∧
    (FreeListImpl.dealloc ⟨8, some []⟩ 8 ⟨10, 4⟩).isSome = true :=
  ⟨release_small_assert.2.1 ⟨8, some []⟩ 8 10 [] rfl (by decide) (by decide),
   release_small_assert.2.2 ⟨8, some []⟩ 8 ⟨10, 4⟩ [] rfl (by decide) (by decide)⟩

/-- C5: the claim holds for the unlinking, the LIFO head insertion, the
leftover's exact size, and the returned pointer, but it fails on the
leftover's address: the source computes `alloc_end` as `alloc_start.add(size)`
on a `*mut ListNode`, which offsets by `size * size_of::<ListNode>()` bytes,
so the leftover node is written at carved start + 16 × effective size instead
of carved start + effective size.  At the state with the single free node
`⟨8, 48⟩` and a `(10, 4)` request (effective size 16): the node is unlinked
and pointer 8 returned, but the 32-byte leftover node is recorded at
8 + 16·16 = 264, not at 8 + 16 = 24. -/
theorem freelist_alloc_leftover_misplaced :
    FreeListImpl.alloc 1024 ⟨8, some [⟨8, 48⟩]⟩ ⟨10, 4⟩ =
      some (some 8, ⟨8, some [⟨264, 32⟩]⟩) ∧
    effSize ⟨10, 4⟩ = 16 ∧
    8 + listNodeSize * effSize ⟨10, 4⟩ = 264 ∧
    (8 + effSize ⟨10, 4⟩ = 24 ∧ (264 : Nat) ≠ 24) :=
  ⟨by decide, by decide, by decide, by decide, by decide⟩

/-- C8: the allocator starts uninitialized (`head = none`); the first `alloc`
call installs the sentinel anchoring one free region spanning the whole arena
(here: `head` goes from `none` to `some [⟨base, SIZE⟩]`, the `some` being the
size-0 sentinel) and proceeds from that state; no `alloc` or `dealloc` that
returns ever yields a state with `head = none` again. -/
theorem freelist_lazy_init :
    (∀ base : Nat, (FreeListImpl.new base).head = none) ∧
    (∀ (SIZE base : Nat) (layout : Layout), base ≠ 0 →
      base % listNodeAlign = 0 → listNodeSize ≤ SIZE →
      FreeListImpl.alloc SIZE (FreeListImpl.new base) layout =
        FreeListImpl.alloc SIZE ⟨base, some [⟨base, SIZE⟩]⟩ layout) ∧
    (∀ (SIZE : Nat) (st : FreeListImpl) (layout : Layout) (res : Option Nat)
      (st1 : FreeListImpl),
      FreeListImpl.alloc SIZE st layout = some (res, st1) → st1.head ≠ none) ∧
    (∀ (st : FreeListImpl) (p : Nat) (layout : Layout) (st1 : FreeListImpl),
      FreeListImpl.dealloc st p layout = some st1 → st1.head ≠ none) := by
  refine ⟨fun base => rfl, ?_, ?_, ?_⟩
  · intro SIZE base layout hbase hal hsz
    rw [alloc_new_eq SIZE base layout hbase hal hsz]
    exact (alloc_eq_init SIZE ⟨base, some [⟨base, SIZE⟩]⟩ layout [⟨base, SIZE⟩] rfl).symm
  · intro SIZE st layout res st1 h
    obtain ⟨nodes1, hn⟩ := alloc_some_head h
    rw [hn]
    simp
  · intro st p layout st1 h
    obtain ⟨-, -, -, nodes, -, rfl⟩ := add_free_region_eq_some.mp h
    simp

theorem freelist_lazy_init_witness :
    FreeListImpl.alloc 64 (FreeListImpl.new 8) ⟨10, 4⟩ =
      FreeListImpl.alloc 64 ⟨8, some [⟨8, 64⟩]⟩ ⟨10, 4⟩ :=
  freelist_lazy_init.2.1 64 8 ⟨10, 4⟩ (by decide) (by decide) (by decide)

/-- C3: repeating allocate-then-release of one fixed layout from the fresh
state, every full cycle ends in one and the same state, whose free-list
length is the steady-state value 2 (the count of nodes hanging off the
sentinel: the freed block's region and the leftover region); in particular
the list length does not grow across cycles. -/
theorem freelist_cycle_stable (SIZE base : Nat) (layout : Layout)
    (hbase : base ≠ 0) (hal : base % listNodeAlign = 0)
    (hfit : effSize layout + listNodeSize ≤ SIZE) :
    ∀ n : Nat, 1 ≤ n →
      iterCycles SIZE layout base n =
        some ⟨base, some [⟨base, effSize layout⟩,
          ⟨base + listNodeSize * effSize layout, SIZE - effSize layout⟩]⟩ ∧
      (iterCycles SIZE layout base n).map FreeListImpl.free_list_length =
        some 2 := by
  intro n hn
  induction n with
  | zero => omega
  | succ m ih =>
    have h1 : iterCycles SIZE layout base (m + 1) =
        some ⟨base, some [⟨base, effSize layout⟩,
          ⟨base + listNodeSize * effSize layout, SIZE - effSize layout⟩]⟩ := by
      rcases Nat.eq_zero_or_pos m with rfl | hm
      · rw [iterCycles_succ, iterCycles_zero]
        exact allocDealloc_new SIZE base layout hbase hal hfit
      · rw [iterCycles_succ, (ih hm).1]
        exact allocDealloc_steady SIZE base layout hbase hal
    exact ⟨h1, by rw [h1]; rfl⟩

theorem freelist_cycle_stable_witness :
    iterCycles 64 ⟨10, 4⟩ 8 2 = some ⟨8, some [⟨8, 16⟩, ⟨264, 48⟩]⟩ ∧
    (iterCycles 64 ⟨10, 4⟩ 8 2).map FreeListImpl.free_list_length = some 2 := by
  have h := freelist_cycle_stable 64 8 ⟨10, 4⟩ (by decide) (by decide)
    (by decide) 2 (by decide)
  exact h

/-- C10: when bump `alloc` fails for lack of remaining span it returns the
null value and leaves the state — `next`, `allocations`, and the arena
bytes — exactly as it was. -/
theorem bump_alloc_fail_state (SIZE : Nat) (st : BumpAlloc) (layout : Layout)
    (h : SIZE < st.next + layout.padToAlign.size) :
    BumpAlloc.alloc SIZE st layout = (none, st) := by
  simp only [BumpAlloc.alloc]
  rw [if_pos (by omega)]

theorem bump_alloc_fail_state_witness :
    BumpAlloc.alloc 8 ⟨[0], 4, 1⟩ ⟨10, 4⟩ = (none, ⟨[0], 4, 1⟩) :=
  bump_alloc_fail_state 8 ⟨[0], 4, 1⟩ ⟨10, 4⟩ (by decide)

end AllocFun
